import Mathlib

/-!
Shallow embedding of the Maya rigging scripts
(`AuttoRigger.py`, `MirrorControls.py`, `broken_FK.py`) and proofs of the
specification claims about them.

Python f-string number formatting (`f"{i:02d}"`) is modelled by `pad2`,
Python `str.replace` by `strReplace`, Python `str.startswith` prefix
dispatch by pattern matching on `String.data`.  Scene-dependent commands
(`cmds.xform`, `cmds.objExists`, ...) are modelled by explicit scene
states threaded through the functions.
-/

namespace MayaRig

/-! ## Decimal rendering of naturals (Python `str(i)` and `f"{i:02d}"`) -/

/-- Decimal value of a list of digit characters (used to invert rendering). -/
def chlVal (l : List Char) : Nat :=
  l.foldl (fun a c => 10 * a + (c.toNat - 48)) 0

/-- Decimal digit characters of `n`, most significant first; `fuel` bounds
the recursion depth (`fuel = n` always suffices). -/
def natDigitsAux : Nat → Nat → List Char
  | 0, _ => []
  | fuel + 1, n =>
    if n = 0 then [] else natDigitsAux fuel (n / 10) ++ [Nat.digitChar (n % 10)]

/-- Decimal rendering of a natural number, as Python `str(i)`. -/
def natStr (n : Nat) : String :=
  if n = 0 then "0" else String.mk (natDigitsAux n n)

/-- Python `f"{i:02d}"`: decimal rendering zero-padded to width 2. -/
def pad2 (n : Nat) : String :=
  if n < 10 then "0" ++ natStr n else natStr n

theorem digitChar_toNat : ∀ d : Fin 10, (Nat.digitChar d.val).toNat = 48 + d.val := by
  decide

theorem digitChar_lt10_inj :
    ∀ d1 d2 : Fin 10, Nat.digitChar d1.val = Nat.digitChar d2.val → d1 = d2 := by
  decide

theorem chlVal_append_singleton (l : List Char) (c : Char) :
    chlVal (l ++ [c]) = 10 * chlVal l + (c.toNat - 48) := by
  simp [chlVal, List.foldl_append]

theorem chlVal_natDigitsAux {fuel n : Nat} (h : n ≤ fuel) :
    chlVal (natDigitsAux fuel n) = n := by
  induction fuel generalizing n with
  | zero =>
    interval_cases n
    simp [natDigitsAux, chlVal]
  | succ fuel ih =>
    by_cases hn : n = 0
    · simp [natDigitsAux, hn, chlVal]
    · have hdiv : n / 10 ≤ fuel := by
        have : n / 10 < n := Nat.div_lt_self (Nat.pos_of_ne_zero hn) (by omega)
        omega
      have hd : (Nat.digitChar (n % 10)).toNat = 48 + n % 10 :=
        digitChar_toNat ⟨n % 10, Nat.mod_lt _ (by omega)⟩
      simp only [natDigitsAux, hn, if_false, chlVal_append_singleton, ih hdiv, hd]
      omega

/-- Decimal value of a string's characters. -/
def strVal (s : String) : Nat := chlVal s.data

theorem string_data_append (a b : String) : (a ++ b).data = a.data ++ b.data := rfl

theorem string_eq_of_data {a b : String} (h : a.data = b.data) : a = b := by
  cases a; cases b; exact congrArg String.mk h

theorem strVal_natStr (n : Nat) : strVal (natStr n) = n := by
  by_cases h : n = 0
  · simp [natStr, h, strVal, chlVal]
  · simp only [natStr, h, if_false, strVal]
    exact chlVal_natDigitsAux (Nat.le_refl n)

theorem chlVal_cons_zero (l : List Char) : chlVal ('0' :: l) = chlVal l := by
  simp [chlVal]

theorem strVal_pad2 (n : Nat) : strVal (pad2 n) = n := by
  by_cases h : n < 10
  · have : ("0" ++ natStr n).data = '0' :: (natStr n).data := rfl
    simp only [pad2, h, if_true, strVal, this, chlVal_cons_zero]
    exact strVal_natStr n
  · simp only [pad2, h, if_false]
    exact strVal_natStr n

theorem pad2_injective : Function.Injective pad2 := by
  intro a b h
  have := strVal_pad2 a
  rw [h, strVal_pad2] at this
  omega

theorem natStr_injective : Function.Injective natStr := by
  intro a b h
  have := strVal_natStr a
  rw [h, strVal_natStr] at this
  omega

/-- Every character produced by `natDigitsAux` is a decimal digit character. -/
theorem natDigitsAux_chars {fuel n : Nat} {c : Char}
    (h : c ∈ natDigitsAux fuel n) : ∃ d : Fin 10, c = Nat.digitChar d := by
  induction fuel generalizing n with
  | zero => simp [natDigitsAux] at h
  | succ fuel ih =>
    by_cases hn : n = 0
    · simp [natDigitsAux, hn] at h
    · simp only [natDigitsAux, hn, if_false, List.mem_append, List.mem_singleton] at h
      rcases h with h | h
      · exact ih h
      · exact ⟨⟨n % 10, Nat.mod_lt _ (by omega)⟩, h⟩

theorem pad2_chars {n : Nat} {c : Char} (h : c ∈ (pad2 n).data) :
    ∃ d : Fin 10, c = Nat.digitChar d := by
  by_cases h10 : n < 10 <;> by_cases hn : n = 0 <;>
    simp only [pad2, natStr, h10, hn, if_true, if_false] at h
  · refine ⟨0, ?_⟩
    simpa using h
  · have : c = '0' ∨ c ∈ natDigitsAux n n := by simpa using h
    rcases this with h | h
    · exact ⟨0, h⟩
    · exact natDigitsAux_chars h
  · omega
  · exact natDigitsAux_chars h

theorem digit_ne_underscore : ∀ d : Fin 10, Nat.digitChar d.val ≠ '_' := by
  decide

theorem pad2_no_underscore {n : Nat} : '_' ∉ (pad2 n).data := by
  intro h
  obtain ⟨d, hd⟩ := pad2_chars h
  exact digit_ne_underscore d hd.symm

/-! ## The rig spec data model (`build_base_spec` / `append_fingers`) -/

/-- One record of the rig spec: `{'key': ..., 'name': ..., 'parent': ...,
'side': ..., 'required': ...}`. -/
structure SpecEntry where
  key : String
  name : String
  parent : Option String
  side : String
  required : Bool
  deriving DecidableEq, Repr

def spineName (i : Nat) : String := "Spine_" ++ pad2 i ++ "_FK_Jnt"

def neckName (i : Nat) : String := "Neck_" ++ pad2 i ++ "_FK_Jnt"

def fingerName (f s : Nat) : String :=
  "L_Finger_" ++ pad2 f ++ "_" ++ pad2 s ++ "_FK_Jnt"

/-- The spine loop `for i in range(1, spine_count+1)` of `build_base_spec`,
threading the running parent `prev`; returns the entries and the final
`prev`. -/
def spineLoop (prev : String) (i : Nat) : Nat → List SpecEntry × String
  | 0 => ([], prev)
  | c + 1 =>
    let j := spineName i
    let rest := spineLoop j (i + 1) c
    (⟨"SPN" ++ natStr i, j, some prev, "C", true⟩ :: rest.1, rest.2)

/-- The neck loop of `build_base_spec`, analogous to `spineLoop`. -/
def neckLoop (prev : String) (i : Nat) : Nat → List SpecEntry × String
  | 0 => ([], prev)
  | c + 1 =>
    let j := neckName i
    let rest := neckLoop j (i + 1) c
    (⟨"NCK" ++ natStr i, j, some prev, "C", true⟩ :: rest.1, rest.2)

/-- The left-arm chain literals of `build_base_spec`. -/
def armEntries : List SpecEntry :=
  [⟨"L_CLAV", "L_Clav_FK_Jnt", some "Chest_FK_Jnt", "L", true⟩,
   ⟨"L_ARM1", "L_Arm_01_FK_Jnt", some "L_Clav_FK_Jnt", "L", true⟩,
   ⟨"L_ARM2", "L_Arm_02_FK_Jnt", some "L_Arm_01_FK_Jnt", "L", true⟩,
   ⟨"L_ARM3", "L_Arm_03_FK_Jnt", some "L_Arm_02_FK_Jnt", "L", true⟩,
   ⟨"L_HAND", "L_Hand_FK_Jnt", some "L_Arm_03_FK_Jnt", "L", true⟩]

/-- The left-leg chain literals of `build_base_spec`. -/
def legEntries : List SpecEntry :=
  [⟨"L_LEGCLAV", "L_Leg_Clav_FK_Jnt", some "Pelvis_FK_Jnt", "L", true⟩,
   ⟨"L_LEG1", "L_Leg_01_FK_Jnt", some "L_Leg_Clav_FK_Jnt", "L", true⟩,
   ⟨"L_LEG2", "L_Leg_02_FK_Jnt", some "L_Leg_01_FK_Jnt", "L", true⟩,
   ⟨"L_LEG3", "L_Leg_03_FK_Jnt", some "L_Leg_02_FK_Jnt", "L", true⟩,
   ⟨"L_FOOT1", "L_Foot_01_FK_Jnt", some "L_Leg_03_FK_Jnt", "L", true⟩,
   ⟨"L_FOOT2", "L_Foot_02_FK_Jnt", some "L_Foot_01_FK_Jnt", "L", true⟩,
   ⟨"L_FOOT3", "L_Foot_03_FK_Jnt", some "L_Foot_02_FK_Jnt", "L", false⟩]

/-- Embedding of `build_base_spec(spine_count, neck_count)` from `AuttoRigger.py`. -/
def build_base_spec (spine_count neck_count : Nat) : List SpecEntry :=
  let sp := spineLoop "Pelvis_FK_Jnt" 1 spine_count
  let nk := neckLoop "Chest_FK_Jnt" 1 neck_count
  [⟨"COG", "COG_FK_Jnt", none, "C", true⟩,
   ⟨"PELV", "Pelvis_FK_Jnt", some "COG_FK_Jnt", "C", true⟩]
  ++ sp.1
  ++ [⟨"CHEST", "Chest_FK_Jnt", some sp.2, "C", true⟩]
  ++ nk.1
  ++ [⟨"HEAD", "Head_FK_Jnt", some nk.2, "C", true⟩]
  ++ armEntries ++ legEntries

/-- The inner segment loop of `append_fingers`
(`for s in range(1, segments+1)` with `prev` threading). -/
def fingerSegLoop (f : Nat) : String → Nat → Nat → List SpecEntry
  | _, _, 0 => []
  | prev, s, c + 1 =>
    ⟨"L_F" ++ natStr f ++ "_" ++ natStr s, fingerName f s, some prev, "L", true⟩
    :: fingerSegLoop f (fingerName f s) (s + 1) c

/-- The outer finger loop of `append_fingers`
(`for f in range(1, finger_count+1)`, resetting `prev` each finger). -/
def fingerLoop (segments : Nat) : Nat → Nat → List SpecEntry
  | _, 0 => []
  | f, c + 1 => fingerSegLoop f "L_Hand_FK_Jnt" 1 segments ++ fingerLoop segments (f + 1) c

/-- Embedding of `append_fingers(spec, finger_count, segments)` from `AuttoRigger.py`:
the entries appended by the loops, after the input spec. -/
def append_fingers (spec : List SpecEntry) (finger_count segments : Nat) :
    List SpecEntry :=
  spec ++ fingerLoop segments 1 finger_count

/-- The spec as assembled by `AutoRigWizard.rebuild_spec`:
`build_base_spec` then, when `finger_count > 0`, `append_fingers`
(`append_fingers` with `finger_count = 0` appends nothing, so the guard
is immaterial and we apply it unconditionally). -/
def full_spec (spine_count neck_count finger_count segments : Nat) :
    List SpecEntry :=
  append_fingers (build_base_spec spine_count neck_count) finger_count segments

/-! ## Well-formedness of the generated spec -/

/-- Predicate `parentsOk seen l`: walking `l` in order, every entry's parent (when not
`none`) is a name already seen — either in `seen` or the name of an earlier
entry of `l`. -/
def parentsOk : List String → List SpecEntry → Prop
  | _, [] => True
  | seen, e :: rest =>
    (∀ p, e.parent = some p → p ∈ seen) ∧ parentsOk (e.name :: seen) rest

theorem parentsOk_append {l1 l2 : List SpecEntry} {seen : List String} :
    parentsOk seen (l1 ++ l2) ↔
      parentsOk seen l1 ∧ parentsOk ((l1.map SpecEntry.name).reverse ++ seen) l2 := by
  induction l1 generalizing seen with
  | nil => simp [parentsOk]
  | cons e l1 ih =>
    simp [parentsOk, ih, and_assoc, List.append_assoc]

theorem parentsOk_mono {l : List SpecEntry} {seen seen' : List String}
    (hsub : ∀ x ∈ seen, x ∈ seen') (h : parentsOk seen l) : parentsOk seen' l := by
  induction l generalizing seen seen' with
  | nil => trivial
  | cons e l ih =>
    refine ⟨fun p hp => hsub p (h.1 p hp), ih ?_ h.2⟩
    intro x hx
    rcases List.mem_cons.1 hx with h1 | h1
    · exact List.mem_cons.2 (Or.inl h1)
    · exact List.mem_cons.2 (Or.inr (hsub x h1))

theorem spineLoop_names (prev : String) (i c : Nat) :
    ((spineLoop prev i c).1).map SpecEntry.name = (List.range' i c).map spineName := by
  induction c generalizing prev i with
  | zero => simp [spineLoop]
  | succ c ih => simp [spineLoop, List.range'_succ, ih]

theorem neckLoop_names (prev : String) (i c : Nat) :
    ((neckLoop prev i c).1).map SpecEntry.name = (List.range' i c).map neckName := by
  induction c generalizing prev i with
  | zero => simp [neckLoop]
  | succ c ih => simp [neckLoop, List.range'_succ, ih]

theorem spineLoop_snd_succ (prev : String) (i c : Nat) :
    (spineLoop prev i (c + 1)).2 = spineName (i + c) := by
  induction c generalizing prev i with
  | zero => simp [spineLoop]
  | succ c ih =>
    show (spineLoop (spineName i) (i + 1) (c + 1)).2 = _
    rw [ih]
    congr 1
    omega

theorem neckLoop_snd_succ (prev : String) (i c : Nat) :
    (neckLoop prev i (c + 1)).2 = neckName (i + c) := by
  induction c generalizing prev i with
  | zero => simp [neckLoop]
  | succ c ih =>
    show (neckLoop (neckName i) (i + 1) (c + 1)).2 = _
    rw [ih]
    congr 1
    omega

theorem spineLoop_snd_mem (prev : String) (i c : Nat) :
    (spineLoop prev i c).2 = prev ∨
      (spineLoop prev i c).2 ∈ ((spineLoop prev i c).1).map SpecEntry.name := by
  cases c with
  | zero => exact Or.inl rfl
  | succ c =>
    right
    rw [spineLoop_snd_succ, spineLoop_names]
    exact List.mem_map_of_mem spineName (List.mem_range'_1.2 ⟨Nat.le_add_right _ _, by omega⟩)

theorem neckLoop_snd_mem (prev : String) (i c : Nat) :
    (neckLoop prev i c).2 = prev ∨
      (neckLoop prev i c).2 ∈ ((neckLoop prev i c).1).map SpecEntry.name := by
  cases c with
  | zero => exact Or.inl rfl
  | succ c =>
    right
    rw [neckLoop_snd_succ, neckLoop_names]
    exact List.mem_map_of_mem neckName (List.mem_range'_1.2 ⟨Nat.le_add_right _ _, by omega⟩)

theorem spineLoop_parentsOk {prev : String} {seen : List String} (i c : Nat)
    (h : prev ∈ seen) : parentsOk seen (spineLoop prev i c).1 := by
  induction c generalizing prev i seen with
  | zero => trivial
  | succ c ih =>
    refine ⟨fun p hp => ?_, ih (i + 1) (List.mem_cons_self _ _)⟩
    cases hp
    exact h

theorem neckLoop_parentsOk {prev : String} {seen : List String} (i c : Nat)
    (h : prev ∈ seen) : parentsOk seen (neckLoop prev i c).1 := by
  induction c generalizing prev i seen with
  | zero => trivial
  | succ c ih =>
    refine ⟨fun p hp => ?_, ih (i + 1) (List.mem_cons_self _ _)⟩
    cases hp
    exact h

theorem fingerSegLoop_names (f : Nat) (prev : String) (s c : Nat) :
    (fingerSegLoop f prev s c).map SpecEntry.name = (List.range' s c).map (fingerName f) := by
  induction c generalizing prev s with
  | zero => simp [fingerSegLoop]
  | succ c ih => simp [fingerSegLoop, List.range'_succ, ih]

theorem fingerSegLoop_parentsOk {f : Nat} {prev : String} {seen : List String} (s c : Nat)
    (h : prev ∈ seen) : parentsOk seen (fingerSegLoop f prev s c) := by
  induction c generalizing prev s seen with
  | zero => trivial
  | succ c ih =>
    refine ⟨fun p hp => ?_, ih (s + 1) (List.mem_cons_self _ _)⟩
    cases hp
    exact h

theorem fingerLoop_parentsOk {seg : Nat} {seen : List String} (f c : Nat)
    (h : "L_Hand_FK_Jnt" ∈ seen) : parentsOk seen (fingerLoop seg f c) := by
  induction c generalizing f seen with
  | zero => trivial
  | succ c ih =>
    show parentsOk seen (fingerSegLoop f "L_Hand_FK_Jnt" 1 seg ++ fingerLoop seg (f + 1) c)
    rw [parentsOk_append]
    refine ⟨fingerSegLoop_parentsOk 1 seg h, ih (f + 1) ?_⟩
    exact List.mem_append.2 (Or.inr h)

/-! ## Distinctness of generated names -/

theorem spineName_data (i : Nat) :
    (spineName i).data =
      'S':: 'p':: 'i':: 'n':: 'e':: '_'::((pad2 i).data ++ ('_':: 'F':: 'K':: '_':: 'J':: 'n':: 't'::[])) := by
  show ("Spine_".data ++ (pad2 i).data) ++ "_FK_Jnt".data = _
  simp

theorem neckName_data (i : Nat) :
    (neckName i).data =
      'N':: 'e':: 'c':: 'k':: '_'::((pad2 i).data ++ ('_':: 'F':: 'K':: '_':: 'J':: 'n':: 't'::[])) := by
  show ("Neck_".data ++ (pad2 i).data) ++ "_FK_Jnt".data = _
  simp

theorem fingerName_data (f s : Nat) :
    (fingerName f s).data =
      'L':: '_':: 'F':: 'i':: 'n':: 'g':: 'e':: 'r':: '_'::
        ((pad2 f).data ++ '_'::((pad2 s).data ++ ('_':: 'F':: 'K':: '_':: 'J':: 'n':: 't'::[]))) := by
  show ((("L_Finger_".data ++ (pad2 f).data) ++ "_".data) ++ (pad2 s).data) ++ "_FK_Jnt".data = _
  simp

theorem spineName_inj {i j : Nat} (h : spineName i = spineName j) : i = j := by
  have hd := congrArg String.data h
  rw [spineName_data, spineName_data] at hd
  simp only [List.cons.injEq, true_and] at hd
  exact pad2_injective (string_eq_of_data (List.append_cancel_right hd))

theorem neckName_inj {i j : Nat} (h : neckName i = neckName j) : i = j := by
  have hd := congrArg String.data h
  rw [neckName_data, neckName_data] at hd
  simp only [List.cons.injEq, true_and] at hd
  exact pad2_injective (string_eq_of_data (List.append_cancel_right hd))

/-- Splitting at the first separator: if neither `a` nor `b` contains `'_'`,
then `a ++ '_'::x = b ++ '_'::y` forces `a = b` and `x = y`. -/
theorem append_underscore_inj :
    ∀ (a b x y : List Char), '_' ∉ a → '_' ∉ b →
      a ++ '_'::x = b ++ '_'::y → a = b ∧ x = y := by
  intro a
  induction a with
  | nil =>
    intro b x y _ hb h
    cases b with
    | nil => simpa using h
    | cons c b =>
      simp only [List.nil_append, List.cons_append, List.cons.injEq] at h
      exact absurd (by rw [← h.1]; exact List.mem_cons_self _ _) hb
  | cons c a ih =>
    intro b x y ha hb h
    cases b with
    | nil =>
      simp only [List.cons_append, List.nil_append, List.cons.injEq] at h
      exact absurd (by rw [h.1]; exact List.mem_cons_self _ _) ha
    | cons d b =>
      simp only [List.cons_append, List.cons.injEq] at h
      have := ih b x y (fun hm => ha (List.mem_cons.2 (Or.inr hm)))
        (fun hm => hb (List.mem_cons.2 (Or.inr hm))) h.2
      exact ⟨by rw [h.1, this.1], this.2⟩

theorem fingerName_inj {f s f' s' : Nat} (h : fingerName f s = fingerName f' s') :
    f = f' ∧ s = s' := by
  have hd := congrArg String.data h
  rw [fingerName_data, fingerName_data] at hd
  simp only [List.cons.injEq, true_and] at hd
  obtain ⟨h1, h2⟩ := append_underscore_inj _ _ _ _ pad2_no_underscore pad2_no_underscore hd
  exact ⟨pad2_injective (string_eq_of_data h1),
    pad2_injective (string_eq_of_data (List.append_cancel_right h2))⟩

/-- All names of literal (non-loop) entries of `build_base_spec`. -/
def litNames : List String :=
  ["COG_FK_Jnt", "Pelvis_FK_Jnt", "Chest_FK_Jnt", "Head_FK_Jnt",
   "L_Clav_FK_Jnt", "L_Arm_01_FK_Jnt", "L_Arm_02_FK_Jnt", "L_Arm_03_FK_Jnt",
   "L_Hand_FK_Jnt",
   "L_Leg_Clav_FK_Jnt", "L_Leg_01_FK_Jnt", "L_Leg_02_FK_Jnt", "L_Leg_03_FK_Jnt",
   "L_Foot_01_FK_Jnt", "L_Foot_02_FK_Jnt", "L_Foot_03_FK_Jnt"]

theorem litNames_nodup : litNames.Nodup := by decide

theorem spineName_head (i : Nat) : (spineName i).data.head? = some 'S' := by
  rw [spineName_data]; rfl

theorem neckName_head (i : Nat) : (neckName i).data.head? = some 'N' := by
  rw [neckName_data]; rfl

theorem fingerName_take4 (f s : Nat) :
    (fingerName f s).data.take 4 = ['L', '_', 'F', 'i'] := by
  rw [fingerName_data]; rfl

theorem lit_head_ne_S : ∀ n ∈ litNames, n.data.head? ≠ some 'S' := by decide

theorem lit_head_ne_N : ∀ n ∈ litNames, n.data.head? ≠ some 'N' := by decide

theorem lit_take4_ne : ∀ n ∈ litNames, n.data.take 4 ≠ ['L', '_', 'F', 'i'] := by decide

theorem spineName_notin_lit {i : Nat} {n : String} (hn : n ∈ litNames) :
    spineName i ≠ n := by
  intro h
  exact lit_head_ne_S n hn (by rw [← h]; exact spineName_head i)

theorem neckName_notin_lit {i : Nat} {n : String} (hn : n ∈ litNames) :
    neckName i ≠ n := by
  intro h
  exact lit_head_ne_N n hn (by rw [← h]; exact neckName_head i)

theorem fingerName_notin_lit {f s : Nat} {n : String} (hn : n ∈ litNames) :
    fingerName f s ≠ n := by
  intro h
  exact lit_take4_ne n hn (by rw [← h]; exact fingerName_take4 f s)

theorem spineName_ne_neckName (i j : Nat) : spineName i ≠ neckName j := by
  intro h
  have h1 := spineName_head i
  rw [h, neckName_head] at h1
  simp at h1

theorem spineName_ne_fingerName (i f s : Nat) : spineName i ≠ fingerName f s := by
  intro h
  have h1 := spineName_head i
  rw [h, fingerName_data] at h1
  simp at h1

theorem neckName_ne_fingerName (i f s : Nat) : neckName i ≠ fingerName f s := by
  intro h
  have h1 := neckName_head i
  rw [h, fingerName_data] at h1
  simp at h1

theorem fingerLoop_names_mem {x : String} {seg f c : Nat}
    (h : x ∈ (fingerLoop seg f c).map SpecEntry.name) :
    ∃ g s, x = fingerName g s ∧ f ≤ g ∧ g < f + c ∧ 1 ≤ s ∧ s < 1 + seg := by
  induction c generalizing f with
  | zero => simp [fingerLoop] at h
  | succ c ih =>
    simp only [fingerLoop, List.map_append, List.mem_append] at h
    rcases h with h | h
    · rw [fingerSegLoop_names] at h
      obtain ⟨s, hs, hx⟩ := List.mem_map.1 h
      rw [List.mem_range'_1] at hs
      exact ⟨f, s, hx.symm, Nat.le_refl f, by omega, hs.1, hs.2⟩
    · obtain ⟨g, s, hx, h1, h2, h3, h4⟩ := ih h
      exact ⟨g, s, hx, by omega, by omega, h3, h4⟩

theorem fingerSegLoop_names_nodup (f : Nat) (prev : String) (s c : Nat) :
    ((fingerSegLoop f prev s c).map SpecEntry.name).Nodup := by
  rw [fingerSegLoop_names]
  exact (List.nodup_range' s c).map (fun a b h => (fingerName_inj h).2)

theorem fingerLoop_names_nodup (seg f c : Nat) :
    ((fingerLoop seg f c).map SpecEntry.name).Nodup := by
  induction c generalizing f with
  | zero => simp [fingerLoop]
  | succ c ih =>
    simp only [fingerLoop, List.map_append]
    rw [List.nodup_append]
    refine ⟨fingerSegLoop_names_nodup f _ 1 seg, ih (f + 1), ?_⟩
    intro x hx hx'
    rw [fingerSegLoop_names] at hx
    obtain ⟨s, _, hfx⟩ := List.mem_map.1 hx
    obtain ⟨g, s', hx', hg, _, _, _⟩ := fingerLoop_names_mem hx'
    rw [← hfx] at hx'
    have := (fingerName_inj hx').1
    omega

theorem notin_spineNames {n : String} (hn : n ∈ litNames) {r : List Nat} :
    n ∉ r.map spineName := by
  intro h
  obtain ⟨i, _, hi⟩ := List.mem_map.1 h
  exact spineName_notin_lit hn hi

theorem notin_neckNames {n : String} (hn : n ∈ litNames) {r : List Nat} :
    n ∉ r.map neckName := by
  intro h
  obtain ⟨i, _, hi⟩ := List.mem_map.1 h
  exact neckName_notin_lit hn hi

theorem notin_fingerNames {n : String} (hn : n ∈ litNames) {seg f c : Nat} :
    n ∉ (fingerLoop seg f c).map SpecEntry.name := by
  intro h
  obtain ⟨g, s, hx, _, _, _, _⟩ := fingerLoop_names_mem h
  exact fingerName_notin_lit hn hx.symm

theorem full_spec_names (sc nc fc fs : Nat) :
    (full_spec sc nc fc fs).map SpecEntry.name =
      "COG_FK_Jnt" :: "Pelvis_FK_Jnt" ::
        ((List.range' 1 sc).map spineName ++
          "Chest_FK_Jnt" ::
            ((List.range' 1 nc).map neckName ++
              "Head_FK_Jnt" ::
                (armEntries.map SpecEntry.name ++ legEntries.map SpecEntry.name ++
                  (fingerLoop fs 1 fc).map SpecEntry.name))) := by
  simp [full_spec, append_fingers, build_base_spec, spineLoop_names, neckLoop_names,
    List.append_assoc]

/-- Generic block shuffle: pull the two interleaved literals to the front and
the trailing block past the two loop blocks. -/
theorem perm_block (S N T : List String) (c h : String) :
    (S ++ c :: (N ++ h :: T)).Perm (c :: h :: (T ++ (S ++ N))) := by
  refine List.perm_middle.trans (List.Perm.cons _ ?_)
  rw [← List.append_assoc]
  exact List.perm_middle.trans (List.Perm.cons _ List.perm_append_comm)

theorem full_spec_names_perm (sc nc fc fs : Nat) :
    ((full_spec sc nc fc fs).map SpecEntry.name).Perm
      (litNames ++
        ((List.range' 1 sc).map spineName ++
          ((List.range' 1 nc).map neckName ++
            (fingerLoop fs 1 fc).map SpecEntry.name))) := by
  rw [full_spec_names]
  refine (List.Perm.cons _ (List.Perm.cons _ (perm_block _ _ _ _ _))).trans ?_
  show (litNames ++
      ((fingerLoop fs 1 fc).map SpecEntry.name ++
        ((List.range' 1 sc).map spineName ++ (List.range' 1 nc).map neckName))).Perm _
  refine List.Perm.append_left _ ?_
  refine List.perm_append_comm.trans ?_
  rw [List.append_assoc]

theorem full_spec_names_nodup (sc nc fc fs : Nat) :
    ((full_spec sc nc fc fs).map SpecEntry.name).Nodup := by
  refine (full_spec_names_perm sc nc fc fs).nodup_iff.2 ?_
  rw [List.nodup_append]
  refine ⟨litNames_nodup, ?_, ?_⟩
  · rw [List.nodup_append]
    refine ⟨(List.nodup_range' 1 sc).map (fun a b h => spineName_inj h), ?_, ?_⟩
    · rw [List.nodup_append]
      refine ⟨(List.nodup_range' 1 nc).map (fun a b h => neckName_inj h),
        fingerLoop_names_nodup fs 1 fc, ?_⟩
      intro x hx hx'
      obtain ⟨i, _, hi⟩ := List.mem_map.1 hx
      obtain ⟨g, s, hgs, _, _, _, _⟩ := fingerLoop_names_mem hx'
      exact neckName_ne_fingerName i g s (by rw [hi, ← hgs])
    · intro x hx hx'
      obtain ⟨i, _, hi⟩ := List.mem_map.1 hx
      rcases List.mem_append.1 hx' with h | h
      · obtain ⟨j, _, hj⟩ := List.mem_map.1 h
        exact spineName_ne_neckName i j (by rw [hi, hj])
      · obtain ⟨g, s, hgs, _, _, _, _⟩ := fingerLoop_names_mem h
        exact spineName_ne_fingerName i g s (by rw [hi, ← hgs])
  · intro x hx hx'
    rcases List.mem_append.1 hx' with h | h
    · exact notin_spineNames hx h
    · rcases List.mem_append.1 h with h1 | h1
      · exact notin_neckNames hx h1
      · exact notin_fingerNames hx h1

theorem build_base_spec_names (sc nc : Nat) :
    (build_base_spec sc nc).map SpecEntry.name =
      "COG_FK_Jnt" :: "Pelvis_FK_Jnt" ::
        ((List.range' 1 sc).map spineName ++
          "Chest_FK_Jnt" ::
            ((List.range' 1 nc).map neckName ++
              "Head_FK_Jnt" ::
                (armEntries.map SpecEntry.name ++ legEntries.map SpecEntry.name))) := by
  simp [build_base_spec, spineLoop_names, neckLoop_names, List.append_assoc]

theorem lhand_mem_base_names (sc nc : Nat) :
    "L_Hand_FK_Jnt" ∈ (build_base_spec sc nc).map SpecEntry.name := by
  rw [build_base_spec_names]
  simp [armEntries]

theorem build_base_spec_parentsOk (sc nc : Nat) : parentsOk [] (build_base_spec sc nc) := by
  have h : build_base_spec sc nc =
      [⟨"COG", "COG_FK_Jnt", none, "C", true⟩,
       ⟨"PELV", "Pelvis_FK_Jnt", some "COG_FK_Jnt", "C", true⟩]
      ++ ((spineLoop "Pelvis_FK_Jnt" 1 sc).1
        ++ ([⟨"CHEST", "Chest_FK_Jnt", some (spineLoop "Pelvis_FK_Jnt" 1 sc).2, "C", true⟩]
          ++ ((neckLoop "Chest_FK_Jnt" 1 nc).1
            ++ ([⟨"HEAD", "Head_FK_Jnt", some (neckLoop "Chest_FK_Jnt" 1 nc).2, "C", true⟩]
              ++ (armEntries ++ legEntries))))) := by
    simp [build_base_spec, List.append_assoc]
  rw [h]
  rw [parentsOk_append]
  refine ⟨by simp [parentsOk], ?_⟩
  rw [parentsOk_append]
  refine ⟨spineLoop_parentsOk 1 sc (by simp), ?_⟩
  rw [parentsOk_append]
  constructor
  · refine ⟨fun p hp => ?_, trivial⟩
    cases hp
    simp only [List.mem_append, List.mem_reverse]
    rcases spineLoop_snd_mem "Pelvis_FK_Jnt" 1 sc with h | h
    · rw [h]; simp
    · exact Or.inl h
  rw [parentsOk_append]
  refine ⟨neckLoop_parentsOk 1 nc (by simp), ?_⟩
  rw [parentsOk_append]
  constructor
  · refine ⟨fun p hp => ?_, trivial⟩
    cases hp
    simp only [List.mem_append, List.mem_reverse, List.mem_cons]
    rcases neckLoop_snd_mem "Chest_FK_Jnt" 1 nc with h | h
    · rw [h]; simp
    · exact Or.inl h
  rw [parentsOk_append]
  constructor
  · simp [parentsOk, armEntries]
  · simp [parentsOk, legEntries, armEntries]

theorem full_spec_parentsOk (sc nc fc fs : Nat) :
    parentsOk [] (full_spec sc nc fc fs) := by
  show parentsOk [] (build_base_spec sc nc ++ fingerLoop fs 1 fc)
  rw [parentsOk_append]
  refine ⟨build_base_spec_parentsOk sc nc, fingerLoop_parentsOk 1 fc ?_⟩
  simp only [List.append_nil, List.mem_reverse]
  exact lhand_mem_base_names sc nc

/-- C1: for every `spine_count`, `neck_count`, `finger_count` and `segments`,
spec generation is deterministic (the builders are pure functions, so
repeated calls give the identical ordered record list), all generated names
are unique within the build, and every record's parent is either `none` or
the name of a record appearing strictly earlier in the sequence. -/
theorem spec_generation_deterministic_and_wellformed (sc nc fc fs : Nat) :
    full_spec sc nc fc fs = full_spec sc nc fc fs ∧
    ((full_spec sc nc fc fs).map SpecEntry.name).Nodup ∧
    parentsOk [] (full_spec sc nc fc fs) :=
  ⟨rfl, full_spec_names_nodup sc nc fc fs, full_spec_parentsOk sc nc fc fs⟩

/-- C6: with `spine_count = 3` and `neck_count = 3`, the generated spec
contains exactly one entry named `Chest_FK_Jnt`, its parent is
`Spine_03_FK_Jnt`, and the entry named `Head_FK_Jnt` has parent
`Neck_03_FK_Jnt`. -/
theorem chest_and_head_parents_at_default_counts :
    ((build_base_spec 3 3).filter (fun e => e.name = "Chest_FK_Jnt")).length = 1 ∧
    ((build_base_spec 3 3).filter (fun e => e.name = "Chest_FK_Jnt")).map SpecEntry.parent
      = [some "Spine_03_FK_Jnt"] ∧
    ((build_base_spec 3 3).filter (fun e => e.name = "Head_FK_Jnt")).map SpecEntry.parent
      = [some "Neck_03_FK_Jnt"] := by
  refine ⟨?_, ?_, ?_⟩ <;> decide

/-- C7: for every input spec, `append_fingers` with `finger_count = 2` and
`segments = 2` appends exactly these 4 entries, in this order: each
finger's first segment is parented to `L_Hand_FK_Jnt` and each later
segment to the prior segment of the same finger. -/
theorem append_fingers_two_fingers_two_segments (spec : List SpecEntry) :
    append_fingers spec 2 2 = spec ++
      [⟨"L_F1_1", "L_Finger_01_01_FK_Jnt", some "L_Hand_FK_Jnt", "L", true⟩,
       ⟨"L_F1_2", "L_Finger_01_02_FK_Jnt", some "L_Finger_01_01_FK_Jnt", "L", true⟩,
       ⟨"L_F2_1", "L_Finger_02_01_FK_Jnt", some "L_Hand_FK_Jnt", "L", true⟩,
       ⟨"L_F2_2", "L_Finger_02_02_FK_Jnt", some "L_Finger_02_01_FK_Jnt", "L", true⟩] := by
  show spec ++ fingerLoop 2 1 2 = _
  exact congrArg (spec ++ ·) (by decide)

/-! ## `swap_LR` (left/right prefix swap) -/

/-- Embedding of `swap_LR` from `AuttoRigger.py`: Python `name.startswith("L_")` and
`"R_" + name[2:]` modelled by matching on the string's characters; names
with neither prefix pass through unchanged. -/
def swap_LR (n : String) : String :=
  match n.data with
  | 'L' :: '_' :: rest => String.mk ('R' :: '_' :: rest)
  | 'R' :: '_' :: rest => String.mk ('L' :: '_' :: rest)
  | _ => n

/-- C5: `swap_LR` maps an `L_`-prefixed name to the matching `R_`-prefixed
name and vice versa, and is an involution on names with either prefix. -/
theorem swap_LR_involution :
    (∀ rest : List Char, swap_LR (String.mk ('L':: '_'::rest)) = String.mk ('R':: '_'::rest)) ∧
    (∀ rest : List Char, swap_LR (String.mk ('R':: '_'::rest)) = String.mk ('L':: '_'::rest)) ∧
    (∀ n : String,
      ((∃ rest, n.data = 'L':: '_'::rest) ∨ (∃ rest, n.data = 'R':: '_'::rest)) →
        swap_LR (swap_LR n) = n) := by
  refine ⟨fun rest => rfl, fun rest => rfl, fun n h => ?_⟩
  rcases h with ⟨rest, hr⟩ | ⟨rest, hr⟩ <;> rw [string_eq_of_data hr] <;> rfl

theorem swap_LR_involution_witness :
    swap_LR "R_Arm_01_FK_Jnt" = "L_Arm_01_FK_Jnt" ∧
    swap_LR (swap_LR "L_Arm_01_FK_Jnt") = "L_Arm_01_FK_Jnt" :=
  ⟨swap_LR_involution.2.1 "Arm_01_FK_Jnt".data,
   swap_LR_involution.2.2 "L_Arm_01_FK_Jnt" (Or.inl ⟨"Arm_01_FK_Jnt".data, rfl⟩)⟩

/-! ## `mirror_x_world` over a world-transform scene state -/

/-- Scene state for world-transform commands: per node name, the world
translation and world rotation triples read/written by `cmds.xform`. -/
structure XScene where
  pos : String → ℚ × ℚ × ℚ
  rot : String → ℚ × ℚ × ℚ

/-- Embedding of `mirror_x_world(src, dst)` from `AuttoRigger.py`: queries the source's
world translation and rotation, writes the translation to the destination
with the X component negated, and writes the rotation unchanged. -/
def mirror_x_world (src dst : String) (sc : XScene) : XScene :=
  let t := sc.pos src
  let r := sc.rot src
  let t_m := (-t.1, t.2.1, t.2.2)
  { pos := fun n => if n = dst then t_m else sc.pos n,
    rot := fun n => if n = dst then r else sc.rot n }

/-- C4: `mirror_x_world` gives the destination world translation
`(-x, y, z)` (Y and Z unchanged) and copies the world rotation unchanged;
mirroring the mirrored node again restores the original position, in
particular the original X coordinate. -/
theorem mirror_x_world_spec (src dst dst2 : String) (sc : XScene) :
    (mirror_x_world src dst sc).pos dst
      = (-(sc.pos src).1, (sc.pos src).2.1, (sc.pos src).2.2) ∧
    (mirror_x_world src dst sc).rot dst = sc.rot src ∧
    (mirror_x_world dst dst2 (mirror_x_world src dst sc)).pos dst2 = sc.pos src ∧
    (mirror_x_world dst dst2 (mirror_x_world src dst sc)).rot dst2 = sc.rot src := by
  refine ⟨by simp [mirror_x_world], by simp [mirror_x_world], ?_, ?_⟩ <;>
    simp [mirror_x_world]

/-! ## Python `str.replace` and `guide_name_for_joint` -/

/-- Boolean prefix test on character lists. -/
def isPrefixChars : List Char → List Char → Bool
  | [], _ => true
  | _ :: _, [] => false
  | a :: as, b :: bs => a == b && isPrefixChars as bs

/-- Leftmost non-overlapping replacement scan of Python `str.replace`;
`fuel` bounds the recursion (the input length always suffices for a
non-empty pattern). -/
def strReplaceAux (pat rep : List Char) : Nat → List Char → List Char
  | 0, s => s
  | _ + 1, [] => []
  | fuel + 1, c :: cs =>
    if isPrefixChars pat (c :: cs) then
      rep ++ strReplaceAux pat rep fuel (List.drop pat.length (c :: cs))
    else
      c :: strReplaceAux pat rep fuel cs

/-- Python `s.replace(pat, rep)` for a non-empty pattern (the scripts only
ever replace the non-empty literals `"_Jnt"` and `"_FK_"`). -/
def strReplace (s pat rep : String) : String :=
  if pat.data.isEmpty then s
  else String.mk (strReplaceAux pat.data rep.data s.data.length s.data)

/-- Embedding of `AutoRigWizard.guide_name_for_joint`:
`joint_name.replace("_Jnt", "_Guide").replace("_FK_", "_FK_")`. -/
def guide_name_for_joint (joint_name : String) : String :=
  strReplace (strReplace joint_name "_Jnt" "_Guide") "_FK_" "_FK_"

theorem strReplaceAux_nil (pat rep : List Char) (fuel : Nat) :
    strReplaceAux pat rep fuel [] = [] := by
  cases fuel <;> rfl

theorem isPrefixChars_drop {pat s : List Char} (h : isPrefixChars pat s = true) :
    pat ++ s.drop pat.length = s := by
  induction pat generalizing s with
  | nil => simp
  | cons a as ih =>
    cases s with
    | nil => simp [isPrefixChars] at h
    | cons b bs =>
      simp only [isPrefixChars, Bool.and_eq_true, beq_iff_eq] at h
      simp [h.1, ih h.2]

theorem strReplaceAux_self {pat : List Char} (hp : pat ≠ []) :
    ∀ fuel s, s.length ≤ fuel → strReplaceAux pat pat fuel s = s := by
  intro fuel
  induction fuel with
  | zero => intro s _; rfl
  | succ fuel ih =>
    intro s hs
    cases s with
    | nil => rfl
    | cons c cs =>
      show (if isPrefixChars pat (c :: cs) then
          pat ++ strReplaceAux pat pat fuel (List.drop pat.length (c :: cs))
        else c :: strReplaceAux pat pat fuel cs) = c :: cs
      by_cases hpre : isPrefixChars pat (c :: cs) = true
      · rw [if_pos hpre, ih _ ?_, isPrefixChars_drop hpre]
        have hlen : 1 ≤ pat.length := by
          cases pat with
          | nil => exact absurd rfl hp
          | cons _ _ => simp
        simp only [List.length_drop, List.length_cons]
        simp only [List.length_cons] at hs
        omega
      · rw [if_neg hpre, ih cs ?_]
        simp only [List.length_cons] at hs
        omega

theorem strReplace_self (s pat : String) : strReplace s pat pat = s := by
  by_cases h : pat.data.isEmpty
  · simp [strReplace, h]
  · rw [strReplace, if_neg (by simp [h])]
    have hp : pat.data ≠ [] := by
      intro hc
      simp [hc] at h
    rw [strReplaceAux_self hp _ _ (Nat.le_refl _)]

/-- The `"_Jnt"` pattern characters. -/
def jntChars : List Char := ['_', 'J', 'n', 't']

theorem strReplaceAux_stem_jnt (rep : List Char) :
    ∀ fuel stem, (stem ++ jntChars).length ≤ fuel → 'J' ∉ stem →
      strReplaceAux jntChars rep fuel (stem ++ jntChars) = stem ++ rep := by
  intro fuel
  induction fuel with
  | zero =>
    intro stem hlen _
    simp [jntChars] at hlen
  | succ fuel ih =>
    intro stem hlen hJ
    cases stem with
    | nil =>
      show (if isPrefixChars jntChars jntChars then
          rep ++ strReplaceAux jntChars rep fuel (List.drop jntChars.length jntChars)
        else _) = [] ++ rep
      rw [if_pos (by decide)]
      simp [jntChars, strReplaceAux_nil]
    | cons c stem =>
      have hpre : isPrefixChars jntChars (c :: (stem ++ jntChars)) = false := by
        by_cases hc : c = '_'
        · subst hc
          cases stem with
          | nil => decide
          | cons d stem =>
            have hd : d ≠ 'J' := fun hd =>
              hJ (List.mem_cons.2 (Or.inr (hd ▸ List.mem_cons_self _ _)))
            simp [isPrefixChars, jntChars, hd, Ne.symm hd]
        · simp [isPrefixChars, jntChars, hc, Ne.symm hc]
      show (if isPrefixChars jntChars (c :: (stem ++ jntChars)) then _ else
          c :: strReplaceAux jntChars rep fuel (stem ++ jntChars)) = (c :: stem) ++ rep
      rw [hpre]
      simp only [Bool.false_eq_true, if_false, List.cons_append, List.cons.injEq, true_and]
      refine ih stem ?_ (fun hm => hJ (List.mem_cons.2 (Or.inr hm)))
      simp only [List.length_append, List.length_cons] at hlen ⊢
      omega

/-- The `"_Guide"` replacement characters. -/
def guideChars : List Char := ['_', 'G', 'u', 'i', 'd', 'e']

/-- For a name of the form `stem ++ "_Jnt"` whose stem contains no `'J'`,
`guide_name_for_joint` yields `stem ++ "_Guide"`. -/
theorem guide_name_of_stem {stem : List Char} {n : String} (hJ : 'J' ∉ stem)
    (hn : n.data = stem ++ jntChars) :
    guide_name_for_joint n = String.mk (stem ++ guideChars) := by
  rw [guide_name_for_joint]
  have h1 : strReplace n "_Jnt" "_Guide" = String.mk (stem ++ guideChars) := by
    rw [strReplace, if_neg (by decide)]
    congr 1
    show strReplaceAux jntChars guideChars n.data.length n.data = stem ++ guideChars
    rw [hn]
    exact strReplaceAux_stem_jnt guideChars _ stem (Nat.le_refl _) hJ
  rw [h1, strReplace_self]

theorem digit_ne_J : ∀ d : Fin 10, Nat.digitChar d.val ≠ 'J' := by
  decide

theorem pad2_no_J {n : Nat} : 'J' ∉ (pad2 n).data := by
  intro h
  obtain ⟨d, hd⟩ := pad2_chars h
  exact digit_ne_J d hd.symm

theorem lit_goodJnt :
    ∀ n ∈ litNames,
      n.data.take (n.data.length - 4) ++ jntChars = n.data ∧
        'J' ∉ n.data.take (n.data.length - 4) := by decide

theorem spineName_good (i : Nat) :
    ∃ stem, (spineName i).data = stem ++ jntChars ∧ 'J' ∉ stem := by
  refine ⟨"Spine_".data ++ ((pad2 i).data ++ ['_', 'F', 'K']), ?_, ?_⟩
  · rw [spineName_data]
    simp [jntChars]
  · intro h
    rcases List.mem_append.1 h with h | h
    · revert h; decide
    rcases List.mem_append.1 h with h | h
    · exact pad2_no_J h
    · revert h; decide

theorem neckName_good (i : Nat) :
    ∃ stem, (neckName i).data = stem ++ jntChars ∧ 'J' ∉ stem := by
  refine ⟨"Neck_".data ++ ((pad2 i).data ++ ['_', 'F', 'K']), ?_, ?_⟩
  · rw [neckName_data]
    simp [jntChars]
  · intro h
    rcases List.mem_append.1 h with h | h
    · revert h; decide
    rcases List.mem_append.1 h with h | h
    · exact pad2_no_J h
    · revert h; decide

theorem fingerName_good (f s : Nat) :
    ∃ stem, (fingerName f s).data = stem ++ jntChars ∧ 'J' ∉ stem := by
  refine ⟨"L_Finger_".data ++ ((pad2 f).data ++ '_' :: ((pad2 s).data ++ ['_', 'F', 'K'])),
    ?_, ?_⟩
  · rw [fingerName_data]
    simp [jntChars]
  · intro h
    rcases List.mem_append.1 h with h | h
    · revert h; decide
    rcases List.mem_append.1 h with h | h
    · exact pad2_no_J h
    rcases List.mem_cons.1 h with h | h
    · revert h; decide
    rcases List.mem_append.1 h with h | h
    · exact pad2_no_J h
    · revert h; decide

/-- Every name in a generated spec has the form `stem ++ "_Jnt"` with no
`'J'` inside the stem (so `"_Jnt"` occurs exactly once, as the suffix). -/
theorem full_spec_name_good {sc nc fc fs : Nat} {x : String}
    (h : x ∈ (full_spec sc nc fc fs).map SpecEntry.name) :
    ∃ stem, x.data = stem ++ jntChars ∧ 'J' ∉ stem := by
  have h2 := (full_spec_names_perm sc nc fc fs).mem_iff.1 h
  rcases List.mem_append.1 h2 with hl | hg
  · have hx := lit_goodJnt x hl
    exact ⟨x.data.take (x.data.length - 4), hx.1.symm, hx.2⟩
  rcases List.mem_append.1 hg with hs | hg2
  · obtain ⟨i, _, hi⟩ := List.mem_map.1 hs
    rw [← hi]
    exact spineName_good i
  rcases List.mem_append.1 hg2 with hn | hf
  · obtain ⟨i, _, hi⟩ := List.mem_map.1 hn
    rw [← hi]
    exact neckName_good i
  · obtain ⟨g, s, hgs, _, _, _, _⟩ := fingerLoop_names_mem hf
    rw [hgs]
    exact fingerName_good g s

/-- C8: on every name of a generated spec, `guide_name_for_joint` replaces
the `_Jnt` suffix by `_Guide` (the mapping is a deterministic suffix
substitution, hence reversible), and it is injective on the spec's names. -/
theorem guide_mapping_suffix_and_injective (sc nc fc fs : Nat) :
    (∀ e ∈ full_spec sc nc fc fs, ∃ stem : String,
        e.name = stem ++ "_Jnt" ∧ guide_name_for_joint e.name = stem ++ "_Guide") ∧
    (∀ e1 ∈ full_spec sc nc fc fs, ∀ e2 ∈ full_spec sc nc fc fs,
        guide_name_for_joint e1.name = guide_name_for_joint e2.name →
          e1.name = e2.name) := by
  constructor
  · intro e he
    obtain ⟨stem, hd, hJ⟩ := full_spec_name_good (List.mem_map_of_mem SpecEntry.name he)
    refine ⟨String.mk stem, ?_, ?_⟩
    · apply string_eq_of_data
      rw [hd]
      rfl
    · rw [guide_name_of_stem hJ hd]
      apply string_eq_of_data
      rfl
  · intro e1 h1 e2 h2 heq
    obtain ⟨s1, hd1, hJ1⟩ := full_spec_name_good (List.mem_map_of_mem SpecEntry.name h1)
    obtain ⟨s2, hd2, hJ2⟩ := full_spec_name_good (List.mem_map_of_mem SpecEntry.name h2)
    rw [guide_name_of_stem hJ1 hd1, guide_name_of_stem hJ2 hd2] at heq
    have hs : s1 = s2 := List.append_cancel_right (congrArg String.data heq)
    apply string_eq_of_data
    rw [hd1, hd2, hs]

theorem guide_mapping_witness :
    (∃ stem : String,
        ("COG_FK_Jnt" : String) = stem ++ "_Jnt" ∧
        guide_name_for_joint "COG_FK_Jnt" = stem ++ "_Guide") ∧
    ("COG_FK_Jnt" : String) = "COG_FK_Jnt" := by
  have h := guide_mapping_suffix_and_injective 3 3 5 3
  have hm : (⟨"COG", "COG_FK_Jnt", none, "C", true⟩ : SpecEntry) ∈ full_spec 3 3 5 3 := by
    decide
  exact ⟨h.1 _ hm, h.2 _ hm _ hm rfl⟩

/-! ## Sides of generated entries (C10) -/

theorem spineLoop_mem_entry {prev : String} {i c : Nat} {e : SpecEntry}
    (h : e ∈ (spineLoop prev i c).1) : e.side = "C" ∧ ∃ k, e.name = spineName k := by
  induction c generalizing prev i with
  | zero => simp [spineLoop] at h
  | succ c ih =>
    rcases List.mem_cons.1 h with h | h
    · rw [h]
      exact ⟨rfl, i, rfl⟩
    · exact ih h

theorem neckLoop_mem_entry {prev : String} {i c : Nat} {e : SpecEntry}
    (h : e ∈ (neckLoop prev i c).1) : e.side = "C" ∧ ∃ k, e.name = neckName k := by
  induction c generalizing prev i with
  | zero => simp [neckLoop] at h
  | succ c ih =>
    rcases List.mem_cons.1 h with h | h
    · rw [h]
      exact ⟨rfl, i, rfl⟩
    · exact ih h

theorem fingerSegLoop_mem_entry {f : Nat} {prev : String} {s c : Nat} {e : SpecEntry}
    (h : e ∈ fingerSegLoop f prev s c) : e.side = "L" ∧ ∃ g s2, e.name = fingerName g s2 := by
  induction c generalizing prev s with
  | zero => simp [fingerSegLoop] at h
  | succ c ih =>
    rcases List.mem_cons.1 h with h | h
    · rw [h]
      exact ⟨rfl, f, s, rfl⟩
    · exact ih h

theorem fingerLoop_mem_entry {seg f c : Nat} {e : SpecEntry}
    (h : e ∈ fingerLoop seg f c) : e.side = "L" ∧ ∃ g s2, e.name = fingerName g s2 := by
  induction c generalizing f with
  | zero => simp [fingerLoop] at h
  | succ c ih =>
    rcases List.mem_append.1 h with h | h
    · exact fingerSegLoop_mem_entry h
    · exact ih h

theorem full_spec_mem_cases {sc nc fc fs : Nat} {e : SpecEntry}
    (h : e ∈ full_spec sc nc fc fs) :
    e = ⟨"COG", "COG_FK_Jnt", none, "C", true⟩ ∨
    e = ⟨"PELV", "Pelvis_FK_Jnt", some "COG_FK_Jnt", "C", true⟩ ∨
    e ∈ (spineLoop "Pelvis_FK_Jnt" 1 sc).1 ∨
    e = ⟨"CHEST", "Chest_FK_Jnt", some (spineLoop "Pelvis_FK_Jnt" 1 sc).2, "C", true⟩ ∨
    e ∈ (neckLoop "Chest_FK_Jnt" 1 nc).1 ∨
    e = ⟨"HEAD", "Head_FK_Jnt", some (neckLoop "Chest_FK_Jnt" 1 nc).2, "C", true⟩ ∨
    e ∈ armEntries ∨ e ∈ legEntries ∨ e ∈ fingerLoop fs 1 fc := by
  simp only [full_spec, append_fingers, build_base_spec, List.mem_append, List.mem_cons,
    List.mem_singleton, List.not_mem_nil, or_false, false_or] at h
  tauto

theorem armEntries_facts :
    ∀ e ∈ armEntries, e.side = "L" ∧ e.name.data.take 2 = ['L', '_'] := by decide

theorem legEntries_facts :
    ∀ e ∈ legEntries, e.side = "L" ∧ e.name.data.take 2 = ['L', '_'] := by decide

theorem spineName_take2 (i : Nat) : (spineName i).data.take 2 = ['S', 'p'] := by
  rw [spineName_data]; rfl

theorem neckName_take2 (i : Nat) : (neckName i).data.take 2 = ['N', 'e'] := by
  rw [neckName_data]; rfl

theorem fingerName_take2 (f s : Nat) : (fingerName f s).data.take 2 = ['L', '_'] := by
  rw [fingerName_data]; rfl

theorem swap_LR_take2 {n : String} (h : n.data.take 2 = ['L', '_']) :
    (swap_LR n).data.take 2 = ['R', '_'] := by
  have hd : n.data = 'L' :: '_' :: n.data.drop 2 := by
    conv_lhs => rw [← List.take_append_drop 2 n.data]
    rw [h]
    rfl
  rw [string_eq_of_data (b := String.mk ('L' :: '_' :: n.data.drop 2)) hd]
  rfl

/-- The per-entry facts needed for C10: every generated entry is center or
left sided, never `R_`-named, and left entries are `L_`-named. -/
theorem full_spec_entry_facts {sc nc fc fs : Nat} {e : SpecEntry}
    (h : e ∈ full_spec sc nc fc fs) :
    (e.side = "C" ∨ e.side = "L") ∧ e.name.data.take 2 ≠ ['R', '_'] ∧
      (e.side = "L" → e.name.data.take 2 = ['L', '_']) := by
  rcases full_spec_mem_cases h with h | h | h | h | h | h | h | h | h
  · rw [h]; refine ⟨Or.inl rfl, by decide, by decide⟩
  · rw [h]; refine ⟨Or.inl rfl, by decide, by decide⟩
  · obtain ⟨hside, k, hk⟩ := spineLoop_mem_entry h
    refine ⟨Or.inl hside, ?_, ?_⟩
    · rw [hk, spineName_take2]; decide
    · intro hL; rw [hside] at hL; exact absurd hL (by decide)
  · rw [h]
    refine ⟨Or.inl rfl, ?_, ?_⟩
    · show List.take 2 "Chest_FK_Jnt".data ≠ ['R', '_']
      decide
    · intro hL
      exact absurd hL (show ("C" : String) ≠ "L" by decide)
  · obtain ⟨hside, k, hk⟩ := neckLoop_mem_entry h
    refine ⟨Or.inl hside, ?_, ?_⟩
    · rw [hk, neckName_take2]; decide
    · intro hL; rw [hside] at hL; exact absurd hL (by decide)
  · rw [h]
    refine ⟨Or.inl rfl, ?_, ?_⟩
    · show List.take 2 "Head_FK_Jnt".data ≠ ['R', '_']
      decide
    · intro hL
      exact absurd hL (show ("C" : String) ≠ "L" by decide)
  · obtain ⟨h1, h2⟩ := armEntries_facts e h
    refine ⟨Or.inr h1, ?_, fun _ => h2⟩
    rw [h2]; decide
  · obtain ⟨h1, h2⟩ := legEntries_facts e h
    refine ⟨Or.inr h1, ?_, fun _ => h2⟩
    rw [h2]; decide
  · obtain ⟨h1, g, s2, hn⟩ := fingerLoop_mem_entry h
    refine ⟨Or.inr h1, ?_, fun _ => by rw [hn]; exact fingerName_take2 g s2⟩
    rw [hn, fingerName_take2]; decide

/-- C10: every generated spec entry has side `"C"` or `"L"` (never `"R"`),
so the wizard's step filter keeping sides in `("C", "L")` retains the whole
spec; no spec record is `R_`-named, and right-side names only arise by
applying `swap_LR` to the `L_`-prefixed left entries at mirror time. -/
theorem spec_sides_center_left_only (sc nc fc fs : Nat) :
    (∀ e ∈ full_spec sc nc fc fs, e.side = "C" ∨ e.side = "L") ∧
    (full_spec sc nc fc fs).filter (fun s => s.side == "C" || s.side == "L")
      = full_spec sc nc fc fs ∧
    (∀ e ∈ full_spec sc nc fc fs, e.name.data.take 2 ≠ ['R', '_']) ∧
    (∀ e ∈ full_spec sc nc fc fs, e.side = "L" →
      (swap_LR e.name).data.take 2 = ['R', '_']) := by
  refine ⟨fun e he => (full_spec_entry_facts he).1, ?_,
    fun e he => (full_spec_entry_facts he).2.1,
    fun e he hL => swap_LR_take2 ((full_spec_entry_facts he).2.2 hL)⟩
  rw [List.filter_eq_self]
  intro e he
  rcases (full_spec_entry_facts he).1 with h | h <;> rw [h] <;> rfl

theorem spec_sides_witness :
    ((⟨"L_CLAV", "L_Clav_FK_Jnt", some "Chest_FK_Jnt", "L", true⟩ : SpecEntry).side = "C" ∨
     (⟨"L_CLAV", "L_Clav_FK_Jnt", some "Chest_FK_Jnt", "L", true⟩ : SpecEntry).side = "L") ∧
    (swap_LR "L_Clav_FK_Jnt").data.take 2 = ['R', '_'] := by
  have h := spec_sides_center_left_only 3 3 5 3
  have hm : (⟨"L_CLAV", "L_Clav_FK_Jnt", some "Chest_FK_Jnt", "L", true⟩ : SpecEntry)
      ∈ full_spec 3 3 5 3 := by decide
  exact ⟨h.1 _ hm, h.2.2.2 _ hm rfl⟩

/-! ## `build_fk_joints` over an existence-scene (C3) -/

/-- State threaded through the `build_fk_joints` loop: the names of
existing nodes (`cmds.objExists`), the joints created so far (in order),
the warnings issued, and the `cmds.parent(child, parent)` calls made in
the loop. -/
structure FKState where
  scene : List String
  created : List String
  warnings : List String
  parented : List (String × String)
  deriving DecidableEq, Repr

/-- One iteration of the `for s in self.spec` loop of
`AutoRigWizard.build_fk_joints`: skip (with a warning when `required`) if
the guide is absent, skip with a warning if the joint already exists,
otherwise create the joint (its world position, read from the guide, is
not tracked by the existence-scene) and parent it when the named parent
exists. -/
def buildStep (st : FKState) (e : SpecEntry) : FKState :=
  let j := e.name
  let g := guide_name_for_joint j
  if g ∈ st.scene then
    if j ∈ st.scene then
      { st with warnings := st.warnings ++ ["Joint already exists, skipping: " ++ j] }
    else
      let st1 : FKState :=
        { st with scene := st.scene ++ [j], created := st.created ++ [j] }
      match e.parent with
      | some p =>
        if p ∈ st1.scene then { st1 with parented := st1.parented ++ [(j, p)] } else st1
      | none => st1
  else if e.required then
    { st with warnings := st.warnings ++ ["Missing guide for required joint: " ++ j] }
  else st

/-- Embedding of `ensure_group(name)`: create the (empty) group node when absent. -/
def ensure_group (name : String) (scene : List String) : List String :=
  if name ∈ scene then scene else scene ++ [name]

/-- Embedding of `AutoRigWizard.build_fk_joints`: ensure the joints group, run the spec
loop in authored order, and compute the created roots (created joints not
parented in the loop) that the trailing loop parents under
`RigJoints_GRP`. -/
def build_fk_joints (spec : List SpecEntry) (scene0 : List String) :
    FKState × List String :=
  let scene1 := ensure_group "RigJoints_GRP" scene0
  let st := spec.foldl buildStep
    { scene := scene1, created := [], warnings := [], parented := [] }
  (st, st.created.filter (fun j => !(st.parented.any (fun pr => pr.1 == j))))

/-- Guide-existence test against the initial scene. -/
def guidePresent (scene0 : List String) (e : SpecEntry) : Bool :=
  decide (guide_name_for_joint e.name ∈ scene0)

theorem jnt_last {x : String} (hgood : ∃ stem, x.data = stem ++ jntChars ∧ 'J' ∉ stem) :
    x.data.getLast? = some 't' := by
  obtain ⟨stem, hd, _⟩ := hgood
  rw [hd, List.getLast?_append]
  rfl

theorem guide_last {x : String}
    (hgood : ∃ stem, x.data = stem ++ jntChars ∧ 'J' ∉ stem) :
    (guide_name_for_joint x).data.getLast? = some 'e' := by
  obtain ⟨stem, hd, hJ⟩ := hgood
  rw [guide_name_of_stem hJ hd]
  show (stem ++ guideChars).getLast? = some 'e'
  rw [List.getLast?_append]
  rfl

theorem spec_name_ne_grp {sc nc fc fs : Nat} {x : String}
    (h : x ∈ (full_spec sc nc fc fs).map SpecEntry.name) : x ≠ "RigJoints_GRP" := by
  intro he
  have h1 := jnt_last (full_spec_name_good h)
  rw [he] at h1
  exact absurd h1 (by decide)

theorem guide_ne_spec_name {sc nc fc fs : Nat} {x y : String}
    (hx : x ∈ (full_spec sc nc fc fs).map SpecEntry.name)
    (hy : y ∈ (full_spec sc nc fc fs).map SpecEntry.name) :
    guide_name_for_joint x ≠ y := by
  intro he
  have h1 := guide_last (full_spec_name_good hx)
  have h2 := jnt_last (full_spec_name_good hy)
  rw [he, h2] at h1
  exact absurd h1 (by decide)

theorem guide_ne_grp {sc nc fc fs : Nat} {x : String}
    (hx : x ∈ (full_spec sc nc fc fs).map SpecEntry.name) :
    guide_name_for_joint x ≠ "RigJoints_GRP" := by
  intro he
  have h1 := guide_last (full_spec_name_good hx)
  rw [he] at h1
  exact absurd h1 (by decide)

theorem mem_ensure_group {g name : String} {scene : List String} :
    g ∈ ensure_group name scene ↔ g ∈ scene ∨ g = name := by
  unfold ensure_group
  by_cases h : name ∈ scene
  · rw [if_pos h]
    constructor
    · exact Or.inl
    · rintro (hg | hg)
      · exact hg
      · rw [hg]; exact h
  · rw [if_neg h]
    simp [List.mem_append]

/-- C3 counterexample: with `spine_count = neck_count = 1` and a scene
already containing `COG_FK_Jnt` together with its guide, the entry
`COG_FK_Jnt` has its guide placed yet no joint at all is created (the code
warns `Joint already exists` and skips), refuting "creates exactly one
joint node per entry whose corresponding guide exists" over every scene
state. -/
theorem build_fk_joints_existing_joint_counterexample :
    (build_fk_joints (build_base_spec 1 1) ["COG_FK_Guide", "COG_FK_Jnt"]).1.created = [] ∧
    ((build_base_spec 1 1).filter
        (guidePresent ["COG_FK_Guide", "COG_FK_Jnt"])).map SpecEntry.name
      = ["COG_FK_Jnt"] ∧
    (build_fk_joints (build_base_spec 1 1) ["COG_FK_Guide", "COG_FK_Jnt"]).1.warnings.head?
      = some "Joint already exists, skipping: COG_FK_Jnt" := by
  refine ⟨?_, ?_, ?_⟩ <;> decide

theorem mem_map_of_mem_filter {l : List SpecEntry} {f : SpecEntry → Bool} {x : String}
    (h : x ∈ (l.filter f).map SpecEntry.name) : x ∈ l.map SpecEntry.name := by
  obtain ⟨e2, he2, hx2⟩ := List.mem_map.1 h
  exact hx2 ▸ List.mem_map_of_mem _ (List.mem_of_mem_filter he2)

/-- Invariant run lemma for the `build_fk_joints` loop on a scene that
contains none of the spec's joint names: walking any suffix `rem` after
having processed `done`, the loop appends exactly the guide-present names
to `created`, a missing-guide warning per skipped required entry, and one
parent attachment per created entry whose parent was itself created. -/
theorem build_fk_run (sc nc fc fs : Nat) (scene0 : List String)
    (hclean : ∀ e ∈ full_spec sc nc fc fs, e.name ∉ scene0) :
    ∀ (rem done : List SpecEntry) (st : FKState),
      full_spec sc nc fc fs = done ++ rem →
      st.scene = ensure_group "RigJoints_GRP" scene0 ++ st.created →
      st.created = (done.filter (guidePresent scene0)).map SpecEntry.name →
      (List.foldl buildStep st rem).created
          = st.created ++ (rem.filter (guidePresent scene0)).map SpecEntry.name ∧
      (List.foldl buildStep st rem).warnings
          = st.warnings ++
              (rem.filter (fun e => !guidePresent scene0 e && e.required)).map
                (fun e => "Missing guide for required joint: " ++ e.name) ∧
      (List.foldl buildStep st rem).parented
          = st.parented ++ rem.filterMap (fun e =>
              if guidePresent scene0 e then
                e.parent.bind (fun p =>
                  if p ∈ ((full_spec sc nc fc fs).filter (guidePresent scene0)).map
                      SpecEntry.name
                  then some (e.name, p) else none)
              else none) := by
  intro rem
  induction rem with
  | nil =>
    intro done st _ _ _
    simp
  | cons e rem ih =>
    intro done st hsplit hscene hcreated
    have hsplit2 : full_spec sc nc fc fs = (done ++ [e]) ++ rem := by
      rw [hsplit, List.append_assoc, List.singleton_append]
    have hmem_e : e ∈ full_spec sc nc fc fs := by
      rw [hsplit]
      exact List.mem_append.2 (Or.inr (List.mem_cons_self _ _))
    have hname_e : e.name ∈ (full_spec sc nc fc fs).map SpecEntry.name :=
      List.mem_map_of_mem _ hmem_e
    have hnodup := full_spec_names_nodup sc nc fc fs
    rw [hsplit, List.map_append] at hnodup
    have hdisj := (List.nodup_append.1 hnodup).2.2
    have hcsub : ∀ x ∈ st.created, x ∈ (full_spec sc nc fc fs).map SpecEntry.name := by
      intro x hx
      rw [hcreated] at hx
      rw [hsplit, List.map_append]
      exact List.mem_append.2 (Or.inl (mem_map_of_mem_filter hx))
    have hfoldl : List.foldl buildStep st (e :: rem) = List.foldl buildStep (buildStep st e) rem := rfl
    cases hgp : guidePresent scene0 e with
    | false =>
      have hng : guide_name_for_joint e.name ∉ scene0 := of_decide_eq_false hgp
      have hgmem : guide_name_for_joint e.name ∉ st.scene := by
        rw [hscene]
        intro hc
        rcases List.mem_append.1 hc with hc | hc
        · rcases mem_ensure_group.1 hc with hc | hc
          · exact hng hc
          · exact guide_ne_grp hname_e hc
        · exact guide_ne_spec_name hname_e (hcsub _ hc) rfl
      have hstep : buildStep st e =
          (if e.required = true then
            { st with warnings := st.warnings ++ ["Missing guide for required joint: " ++ e.name] }
          else st) := by
        simp only [buildStep]
        rw [if_neg hgmem]
      rw [hfoldl, hstep]
      cases hreq : e.required with
      | false =>
        rw [if_neg Bool.false_ne_true]
        obtain ⟨h1, h2, h3⟩ := ih (done ++ [e]) st hsplit2 hscene
          (by rw [List.filter_append, List.map_append, hcreated]
              simp [List.filter_cons, hgp])
        refine ⟨?_, ?_, ?_⟩
        · rw [h1]
          simp [List.filter_cons, hgp]
        · rw [h2]
          simp [List.filter_cons, hgp, hreq]
        · rw [h3]
          simp [List.filterMap_cons, hgp]
      | true =>
        rw [if_pos rfl]
        obtain ⟨h1, h2, h3⟩ := ih (done ++ [e])
          { st with warnings := st.warnings ++ ["Missing guide for required joint: " ++ e.name] }
          hsplit2 hscene
          (by rw [List.filter_append, List.map_append, hcreated]
              simp [List.filter_cons, hgp])
        refine ⟨?_, ?_, ?_⟩
        · rw [h1]
          simp [List.filter_cons, hgp]
        · rw [h2]
          simp [List.filter_cons, hgp, hreq, List.append_assoc]
        · rw [h3]
          simp [List.filterMap_cons, hgp]
    | true =>
      have hg0 : guide_name_for_joint e.name ∈ scene0 := of_decide_eq_true hgp
      have hgmem : guide_name_for_joint e.name ∈ st.scene := by
        rw [hscene]
        exact List.mem_append.2 (Or.inl (mem_ensure_group.2 (Or.inl hg0)))
      have hjdone : e.name ∉ List.map SpecEntry.name done := by
        intro hc
        exact hdisj hc (by simp)
      have hjne : e.name ∉ st.scene := by
        rw [hscene]
        intro hc
        rcases List.mem_append.1 hc with hc | hc
        · rcases mem_ensure_group.1 hc with hc | hc
          · exact hclean e hmem_e hc
          · exact spec_name_ne_grp hname_e hc
        · rw [hcreated] at hc
          exact hjdone (mem_map_of_mem_filter hc)
      have hcreated2 : st.created ++ [e.name]
          = ((done ++ [e]).filter (guidePresent scene0)).map SpecEntry.name := by
        rw [List.filter_append, List.map_append, hcreated]
        simp [List.filter_cons, hgp]
      cases hpar : e.parent with
      | none =>
        have hstep : buildStep st e =
            { st with scene := st.scene ++ [e.name], created := st.created ++ [e.name] } := by
          simp only [buildStep]
          rw [if_pos hgmem, if_neg hjne, hpar]
        rw [hfoldl, hstep]
        obtain ⟨h1, h2, h3⟩ := ih (done ++ [e])
          { st with scene := st.scene ++ [e.name], created := st.created ++ [e.name] }
          hsplit2
          (by show st.scene ++ [e.name] = _ ++ (st.created ++ [e.name])
              rw [hscene, List.append_assoc])
          hcreated2
        refine ⟨?_, ?_, ?_⟩
        · rw [h1]
          simp [List.filter_cons, hgp, List.append_assoc]
        · rw [h2]
          simp [List.filter_cons, hgp]
        · rw [h3]
          simp [List.filterMap_cons, hgp, hpar]
      | some p =>
        have hpo := full_spec_parentsOk sc nc fc fs
        rw [hsplit, parentsOk_append] at hpo
        have hp_done : p ∈ List.map SpecEntry.name done := by
          have := hpo.2.1 p hpar
          simpa [List.mem_reverse] using this
        have hp_spec : p ∈ (full_spec sc nc fc fs).map SpecEntry.name := by
          rw [hsplit, List.map_append]
          exact List.mem_append.2 (Or.inl hp_done)
        have hp_not0 : p ∉ scene0 := by
          obtain ⟨e2, he2, hp2⟩ := List.mem_map.1 hp_done
          intro hc
          have he2s : e2 ∈ full_spec sc nc fc fs := by
            rw [hsplit]
            exact List.mem_append.2 (Or.inl he2)
          exact hclean e2 he2s (hp2 ▸ hc)
        have hp_cond : (p ∈ st.scene ++ [e.name]) ↔
            p ∈ ((full_spec sc nc fc fs).filter (guidePresent scene0)).map SpecEntry.name := by
          constructor
          · intro hc
            rcases List.mem_append.1 hc with hc | hc
            · rw [hscene] at hc
              rcases List.mem_append.1 hc with hc | hc
              · rcases mem_ensure_group.1 hc with hc | hc
                · exact absurd hc hp_not0
                · exact absurd hc (spec_name_ne_grp hp_spec)
              · rw [hcreated] at hc
                rw [hsplit, List.filter_append, List.map_append]
                exact List.mem_append.2 (Or.inl hc)
            · have : p = e.name := by simpa using hc
              exact absurd (this ▸ hp_done) hjdone
          · intro hc
            rw [hsplit, List.filter_append, List.map_append] at hc
            rcases List.mem_append.1 hc with hc | hc
            · rw [hscene, hcreated]
              exact List.mem_append.2 (Or.inl (List.mem_append.2 (Or.inr hc)))
            · exact absurd hp_done (fun hcc => hdisj hcc (mem_map_of_mem_filter hc))
        by_cases hpc : p ∈ st.scene ++ [e.name]
        · have hstep : buildStep st e = { st with scene := st.scene ++ [e.name], created := st.created ++ [e.name], parented := st.parented ++ [(e.name, p)] } := by
            simp only [buildStep]
            rw [if_pos hgmem, if_neg hjne, hpar]
            show (if p ∈ st.scene ++ [e.name] then _ else _) = _
            rw [if_pos hpc]
          rw [hfoldl, hstep]
          obtain ⟨h1, h2, h3⟩ := ih (done ++ [e])
            { st with scene := st.scene ++ [e.name], created := st.created ++ [e.name], parented := st.parented ++ [(e.name, p)] }
            hsplit2
            (by show st.scene ++ [e.name] = _ ++ (st.created ++ [e.name])
                rw [hscene, List.append_assoc])
            hcreated2
          refine ⟨?_, ?_, ?_⟩
          · rw [h1]
            simp [List.filter_cons, hgp, List.append_assoc]
          · rw [h2]
            simp [List.filter_cons, hgp]
          · rw [h3, List.filterMap_cons]
            have hpF : p ∈ ((full_spec sc nc fc fs).filter
                (guidePresent scene0)).map SpecEntry.name := hp_cond.1 hpc
            simp [hgp, hpar, hpF, List.append_assoc]
        · have hstep : buildStep st e =
              { st with scene := st.scene ++ [e.name], created := st.created ++ [e.name] } := by
            simp only [buildStep]
            rw [if_pos hgmem, if_neg hjne, hpar]
            show (if p ∈ st.scene ++ [e.name] then _ else _) = _
            rw [if_neg hpc]
          rw [hfoldl, hstep]
          obtain ⟨h1, h2, h3⟩ := ih (done ++ [e])
            { st with scene := st.scene ++ [e.name], created := st.created ++ [e.name] }
            hsplit2
            (by show st.scene ++ [e.name] = _ ++ (st.created ++ [e.name])
                rw [hscene, List.append_assoc])
            hcreated2
          refine ⟨?_, ?_, ?_⟩
          · rw [h1]
            simp [List.filter_cons, hgp, List.append_assoc]
          · rw [h2]
            simp [List.filter_cons, hgp]
          · rw [h3, List.filterMap_cons]
            have hpF : p ∉ ((full_spec sc nc fc fs).filter
                (guidePresent scene0)).map SpecEntry.name := fun hcc => hpc (hp_cond.2 hcc)
            simp [hgp, hpar, hpF]

/-- C3 (amended): on any scene that does not already contain any of the
spec's joint names, `build_fk_joints` walks the spec in authored order and
creates exactly one joint per entry whose guide exists, skips entries whose
guide is absent with a warning exactly when they are required, and attaches
each created joint to its entry's named parent exactly when that parent was
itself created (equivalently, when it exists in the scene at that point). -/
theorem build_fk_joints_clean_scene (sc nc fc fs : Nat) (scene0 : List String)
    (hclean : ∀ e ∈ full_spec sc nc fc fs, e.name ∉ scene0) :
    (build_fk_joints (full_spec sc nc fc fs) scene0).1.created
        = ((full_spec sc nc fc fs).filter (guidePresent scene0)).map SpecEntry.name ∧
    (build_fk_joints (full_spec sc nc fc fs) scene0).1.warnings
        = ((full_spec sc nc fc fs).filter
            (fun e => !guidePresent scene0 e && e.required)).map
            (fun e => "Missing guide for required joint: " ++ e.name) ∧
    (build_fk_joints (full_spec sc nc fc fs) scene0).1.parented
        = (full_spec sc nc fc fs).filterMap (fun e =>
            if guidePresent scene0 e then
              e.parent.bind (fun p =>
                if p ∈ ((full_spec sc nc fc fs).filter (guidePresent scene0)).map
                    SpecEntry.name
                then some (e.name, p) else none)
            else none) := by
  obtain ⟨h1, h2, h3⟩ := build_fk_run sc nc fc fs scene0 hclean (full_spec sc nc fc fs) []
    { scene := ensure_group "RigJoints_GRP" scene0, created := [], warnings := [],
      parented := [] }
    rfl (by simp) rfl
  exact ⟨by simpa using h1, by simpa using h2, by simpa using h3⟩

theorem build_fk_joints_clean_scene_witness :
    (build_fk_joints (full_spec 1 1 1 1) ["COG_FK_Guide"]).1.created
      = ((full_spec 1 1 1 1).filter (guidePresent ["COG_FK_Guide"])).map SpecEntry.name :=
  (build_fk_joints_clean_scene 1 1 1 1 ["COG_FK_Guide"] (by decide)).1

/-! ## `broken_FK.py` constraint-chaining script (C2) -/

/-- Constraint nodes created by iteration `i` of the `broken_FK.py` loop,
all placed on the child's parent group: the translate-only parent
constraint (`skipRotate=['x','y','z']`), the rotate-only parent constraint
(`skipTranslate=['x','y','z']`), and the scale constraint. -/
inductive CNode
  | pConstraint1 (i : Nat)
  | pConstraint2 (i : Nat)
  | sConstraint (i : Nat)
  deriving DecidableEq, Repr

/-- One `connectAttr` call: source control/attribute to a constraint's
`w0` weight. -/
structure ConnectOp where
  srcCtrl : String
  srcAttr : String
  dst : CNode
  deriving DecidableEq, Repr

/-- One `addAttr` call (double, min 0, max 1, default 1, made keyable). -/
structure AddAttrOp where
  ctrl : String
  attr : String
  deriving DecidableEq, Repr

/-- Trace of one iteration of the `broken_FK.py` loop for pair index `i`
(`parent_ctrl = sels[i]`, `child_ctrl = sels[i+1]`): the three constraints
created, the custom attributes added on the child control, and the
`connectAttr` calls, in program order (the final line of the script
connects `Follow_Rotate` to the rotate constraint a second time). -/
structure FKIter where
  parentCtrl : String
  childCtrl : String
  constraints : List CNode
  addedAttrs : List AddAttrOp
  connections : List ConnectOp
  deriving DecidableEq, Repr

def broken_FK_iter (sels : List String) (i : Nat) : FKIter :=
  let parent_ctrl := sels.getD i ""
  let child_ctrl := sels.getD (i + 1) ""
  { parentCtrl := parent_ctrl
    childCtrl := child_ctrl
    constraints := [CNode.pConstraint1 i, CNode.pConstraint2 i, CNode.sConstraint i]
    addedAttrs := [⟨child_ctrl, "Follow_Translate"⟩, ⟨child_ctrl, "Follow_Rotate"⟩]
    connections :=
      [⟨child_ctrl, "Follow_Translate", CNode.pConstraint1 i⟩,
       ⟨child_ctrl, "Follow_Rotate", CNode.pConstraint2 i⟩,
       ⟨child_ctrl, "Follow_Rotate", CNode.pConstraint2 i⟩] }

/-- Embedding of the `broken_FK.py` loop header `for index in range(0, len(sels) - 1, 1)`. -/
def broken_FK (sels : List String) : List FKIter :=
  (List.range (sels.length - 1)).map (broken_FK_iter sels)

/-- Does a connection target a scale constraint? -/
def targetsScale (c : ConnectOp) : Bool :=
  match c.dst with
  | CNode.sConstraint _ => true
  | _ => false

/-- In every run of `broken_FK.py`, no `connectAttr` ever targets a scale
constraint: the scale constraint is created but never gated. -/
theorem broken_FK_no_scale_connection (sels : List String) :
    ((broken_FK sels).map FKIter.connections).flatten.filter targetsScale = [] := by
  unfold broken_FK
  induction (List.range (sels.length - 1)) with
  | nil => rfl
  | cons i l ih =>
    simp only [List.map_cons, List.flatten_cons, List.filter_append, ih, List.append_nil]
    rfl

/-- C2 (code bug, evaluated at the failing input `sels = ["A", "B"]`): the
loop creates the translate-only and rotate-only parent constraints and the
scale constraint, gates the two parent constraints with the custom
`Follow_Translate`/`Follow_Rotate` attributes added on the child, but
connects `Follow_Rotate` to the rotate constraint twice and never connects
anything to the scale constraint — so the scale constraint is not gated by
any custom attribute. -/
theorem broken_FK_scale_constraint_ungated :
    (broken_FK ["A", "B"]).map FKIter.constraints
      = [[CNode.pConstraint1 0, CNode.pConstraint2 0, CNode.sConstraint 0]] ∧
    (broken_FK ["A", "B"]).map FKIter.addedAttrs
      = [[⟨"B", "Follow_Translate"⟩, ⟨"B", "Follow_Rotate"⟩]] ∧
    (broken_FK ["A", "B"]).map FKIter.connections
      = [[⟨"B", "Follow_Translate", CNode.pConstraint1 0⟩,
          ⟨"B", "Follow_Rotate", CNode.pConstraint2 0⟩,
          ⟨"B", "Follow_Rotate", CNode.pConstraint2 0⟩]] ∧
    ((broken_FK ["A", "B"]).map FKIter.connections).flatten.filter targetsScale = [] := by
  refine ⟨?_, ?_, ?_, ?_⟩ <;> decide

/-! ## `MirrorControls.py` and `snap_to_selection` (C9) -/

/-- Embedding of `snap_to_selection(node)`: with the transform selection passed
explicitly, returns `False` leaving the scene unchanged when no transform
is selected, else copies the first selected transform's world matrix
(position and rotation here) onto `node`. -/
def snap_to_selection (sel : List String) (node : String) (sc : XScene) : Bool × XScene :=
  match sel with
  | [] => (false, sc)
  | s :: _ =>
    (true,
     { pos := fun n => if n = node then sc.pos s else sc.pos n,
       rot := fun n => if n = node then sc.rot s else sc.rot n })

/-- A scene node for the control-mirroring script: name, parent link, and
local translate/rotate/scale values. -/
structure MNode where
  name : String
  parent : Option String
  t : ℚ × ℚ × ℚ
  r : ℚ × ℚ × ℚ
  s : ℚ × ℚ × ℚ
  deriving DecidableEq, Repr

/-- Scene for `MirrorControls.py`: a flat node list (Maya short names; a
duplicated child may share its original's name under a different parent,
as in Maya). -/
abbrev MScene := List MNode

def mObjExists (scene : MScene) (n : String) : Bool :=
  List.any scene (fun nd => nd.name == n)

def mFind (scene : MScene) (n : String) : Option MNode :=
  List.find? (fun nd => nd.name == n) scene

def mRename (scene : MScene) (old new : String) : MScene :=
  List.map (fun nd =>
    let nd1 := if nd.name == old then { nd with name := new } else nd
    if nd1.parent == some old then { nd1 with parent := some new } else nd1) scene

def mSetParent (scene : MScene) (n : String) (p : Option String) : MScene :=
  List.map (fun nd => if nd.name == n then { nd with parent := p } else nd) scene

def mMatchTransform (scene : MScene) (dst src : String) : MScene :=
  match mFind scene src with
  | none => scene
  | some srcNd =>
    List.map (fun nd => if nd.name == dst then { nd with t := srcNd.t, r := srcNd.r } else nd)
      scene

def mSetScale (scene : MScene) (n : String) (v : ℚ × ℚ × ℚ) : MScene :=
  List.map (fun nd => if nd.name == n then { nd with s := v } else nd) scene

def mDelete (scene : MScene) (n : String) : MScene :=
  List.filter (fun nd => !(nd.name == n)) scene

/-- Model of `setAttr translateX/Y/Z 0` followed by `makeIdentity` (freeze all). -/
def mZeroAndFreeze (scene : MScene) (n : String) : MScene :=
  List.map (fun nd =>
    if nd.name == n then { nd with t := (0, 0, 0), r := (0, 0, 0), s := (1, 1, 1) } else nd)
    scene

/-- Nodes of the subtree rooted at `n` (fuel-bounded descent). -/
def mSubtree (scene : MScene) : Nat → String → List MNode
  | 0, _ => []
  | fuel + 1, n =>
    match mFind scene n with
    | none => []
    | some nd =>
      nd :: List.foldr (fun c acc => mSubtree scene fuel c.name ++ acc) []
        (List.filter (fun c => c.parent == some n) scene)

/-- Model of `cmds.duplicate(src)[0]`: copies the subtree rooted at `src`; the top
copy gets the fresh name `newTopName` (models Maya appending a numeric
suffix on the clash), descendants keep their names. -/
def mDuplicate (scene : MScene) (srcName newTopName : String) : MScene :=
  match mFind scene srcName with
  | none => scene
  | some nd =>
    let desc := List.foldr (fun c acc => mSubtree scene scene.length c.name ++ acc) []
      (List.filter (fun c => c.parent == some srcName) scene)
    let descCopies := List.map
      (fun d => if d.parent == some srcName then { d with parent := some newTopName } else d)
      desc
    scene ++ ({ nd with name := newTopName } :: descCopies)

/-- First-occurrence-only variant of Python `str.replace(pat, rep, 1)`. -/
def strReplaceFirstAux (pat rep : List Char) : Nat → List Char → List Char
  | 0, s => s
  | _ + 1, [] => []
  | fuel + 1, c :: cs =>
    if isPrefixChars pat (c :: cs) then rep ++ List.drop pat.length (c :: cs)
    else c :: strReplaceFirstAux pat rep fuel cs

def strReplaceFirst (s pat rep : String) : String :=
  if pat.data.isEmpty then s
  else String.mk (strReplaceFirstAux pat.data rep.data s.data.length s.data)

/-- Python `str.endswith`. -/
def strEndsWith (s suffix : String) : Bool :=
  isPrefixChars suffix.data.reverse s.data.reverse

/-- Python `str.startswith`. -/
def strStartsWith (s pre : String) : Bool :=
  isPrefixChars pre.data s.data

/-- Loop state of `MirrorControls`: the scene, the unparented duplicate
controls collected for later re-parenting, and the warnings issued. -/
structure MCState where
  scene : MScene
  unparented : List String
  warnings : List String

/-- One iteration of the `for ctrl in ctrls` loop of `MirrorControls`:
duplicate the control's group, rename group (`L_` to `R_` and `Grp1` to
`Grp`) and control (`L_` to `R_`), unparent the duplicate control, match
the duplicate group to the matching joint (warning when absent) and move
the duplicate control into `mirror_group`. -/
def mirrorControlsStep (st : MCState) (ctrl : String) : MCState :=
  match (mFind st.scene ctrl).bind MNode.parent with
  | none => st
  | some parentName =>
    let dupe0 := parentName ++ "1"
    let scene1 := mDuplicate st.scene parentName dupe0
    let newGrp := strReplaceFirst dupe0 "L_" "R_"
    let scene2 := mRename scene1 dupe0 newGrp
    let grpEnd := strReplaceFirst newGrp "Grp1" "Grp"
    let scene3 := mRename scene2 newGrp grpEnd
    let kids := List.filter (fun nd => nd.parent == some grpEnd) scene3
    match List.find? (fun k => strEndsWith k.name "_Ctrl") kids with
    | none => { st with scene := scene3 }
    | some k =>
      if strStartsWith k.name "L_" then
        let newLeaf := strReplaceFirst k.name "L_" "R_"
        let scene4 := mRename scene3 k.name newLeaf
        let scene5 := mSetParent scene4 newLeaf none
        let jnt := strReplace grpEnd "_Ctrl_Grp" "_Jnt"
        let scene6 :=
          if mObjExists scene5 jnt then mMatchTransform scene5 grpEnd jnt else scene5
        let warns1 :=
          if mObjExists scene5 jnt then st.warnings
          else st.warnings ++ ["No matching joint for " ++ grpEnd]
        { scene := mSetParent scene6 newLeaf (some "mirror_group"),
          unparented := st.unparented ++ [newLeaf],
          warnings := warns1 }
      else
        { st with scene := mSetParent scene3 k.name (some "mirror_group") }

/-- Embedding of `reparent_controls_to_groups(controls)` from `MirrorControls.py`. -/
def reparent_controls_to_groups (scene : MScene) (controls : List String) :
    MScene × List String :=
  List.foldl (fun (st : MScene × List String) ctrl =>
    if strEndsWith ctrl "_Ctrl" then
      let grp := strReplace ctrl "_Ctrl" "_Ctrl_Grp"
      if mObjExists st.1 grp then (mSetParent st.1 ctrl (some grp), st.2)
      else (st.1, st.2 ++ ["Missing control group: " ++ grp])
    else st) (scene, []) controls

/-- Embedding of `MirrorControls()` from `MirrorControls.py`, with the transform
selection passed explicitly: warn and return when nothing is selected,
else create `mirror_group`, run the per-control mirroring loop, scale the
mirror group by -1 in X, re-parent the duplicated controls to their
groups, delete the mirror group, and zero + freeze each duplicate. -/
def MirrorControls (ctrls : List String) (scene : MScene) : MScene × List String :=
  if ctrls.isEmpty then (scene, ["please select at least one control"])
  else
    let scene1 :=
      if mObjExists scene "mirror_group" then scene
      else scene ++ [⟨"mirror_group", none, (0, 0, 0), (0, 0, 0), (1, 1, 1)⟩]
    let st := List.foldl mirrorControlsStep ⟨scene1, [], []⟩ ctrls
    let scene3 := mSetScale st.scene "mirror_group" (-1, 1, 1)
    let rp := reparent_controls_to_groups scene3 st.unparented
    let scene5 := mDelete rp.1 "mirror_group"
    let scene6 := List.foldl mZeroAndFreeze scene5 st.unparented
    (scene6, st.warnings ++ rp.2)

/-- C9: when the current selection contains no transforms, the affected
operations warn and skip: `MirrorControls` issues its warning and returns
the scene unchanged (nothing created, renamed, or reparented), and
`snap_to_selection` returns `False` without modifying the target node. -/
theorem empty_selection_warns_and_skips (node : String) (x : XScene) (scene : MScene) :
    snap_to_selection [] node x = (false, x) ∧
    MirrorControls [] scene = (scene, ["please select at least one control"]) :=
  ⟨rfl, rfl⟩

end MayaRig
